import Mathlib

/-!
Verification development for the PytorchWord2Vec notebook
(src/P004-Pytorch-Word2Vec/PytorchWord2Vec.ipynb).

The notebook trains skip-gram word embeddings with negative sampling.
This file gives a shallow embedding of its data pipeline and model:

* `text_preprocess` components: vocabulary construction via
  `Counter(text).most_common(MAX_VOCAB_SIZE-1)` plus an `<unk>` bucket,
  the smoothed `counts ** 0.75` negative-sampling distribution;
* `WordEmbeddingDataset.__getitem__`: circular context windows and
  multinomial negative draws;
* `EmbeddingModel.forward`: the bmm / squeeze / logsigmoid / sum pipeline,
  with tensor shapes modelled faithfully (in particular `squeeze` removes
  every size-one dimension, which matters for single-example batches);
* the `evaluate` / `find_nearest` utilities, including their reads of the
  undefined globals `word_to_idx` / `idx_to_word` / `embedding_weights`;
* the `nn.DataParallel` wrapping and the `input_embeddings` attribute
  lookup that the notebook's own recorded output shows failing.

Python corpora are modelled as token lists (`List String`), machine floats
as real numbers, and fallible Python evaluation as `Except String`.
-/

/-- Hyperparameter from the notebook: number of negative samples per context word. -/
def K : ℕ := 100

/-- Hyperparameter from the notebook: context window radius. -/
def C : ℕ := 3

/-- Hyperparameter from the notebook: vocabulary capacity. -/
def MAX_VOCAB_SIZE : ℕ := 30000

/-- Keys of `Counter(text)` in Python insertion order: the distinct tokens of
the corpus, ordered by first occurrence. -/
def keysInOrder : List String → List String
  | [] => []
  | w :: ws => w :: (keysInOrder ws).filter (fun x => x ≠ w)

/-- Stable descending insertion used to model the sort inside
`Counter.most_common` (Python `heapq.nlargest` is stable: ties keep
first-encounter order). `w` is placed before the first element of strictly
smaller count, after any element of equal or larger count. -/
def insertDesc (cnt : String → ℕ) (w : String) : List String → List String
  | [] => [w]
  | x :: xs => if cnt x < cnt w then w :: x :: xs else x :: insertDesc cnt w xs

/-- Stable sort by descending count (left-to-right insertion keeps ties in
input order), modelling the ordering of `Counter.most_common`. -/
def sortDesc (cnt : String → ℕ) (l : List String) : List String :=
  l.foldl (fun acc w => insertDesc cnt w acc) []

/-- Words kept by `Counter(text).most_common(MAX_VOCAB_SIZE - 1)`:
the distinct corpus words sorted by descending count, truncated to the
`MAX_VOCAB_SIZE - 1` most frequent. -/
def topWords (text : List String) : List String :=
  (sortDesc (fun w => text.count w) (keysInOrder text)).take (MAX_VOCAB_SIZE - 1)

/-- The pairs of `dict(Counter(text).most_common(MAX_VOCAB_SIZE - 1))`. -/
def mostCommonPairs (text : List String) : List (String × ℕ) :=
  (topWords text).map (fun w => (w, text.count w))

/-- Python dict assignment `d[k] = v`: updates the value in place if the key
is present (keeping its position, per insertion-ordered dicts), otherwise
appends the new entry at the end. -/
def dictSet (d : List (String × ℕ)) (k : String) (v : ℕ) : List (String × ℕ) :=
  if k ∈ d.map Prod.fst then d.map (fun p => if p.1 = k then (k, v) else p)
  else d ++ [(k, v)]

/-- The count assigned to the out-of-vocabulary bucket:
`len(text) - np.sum(list(vocab.values()))`. -/
def unkCount (text : List String) : ℕ :=
  text.length - ((mostCommonPairs text).map Prod.snd).sum

/-- The `vocab` dict of `text_preprocess`: the kept most-common pairs with
`vocab["<unk>"] = len(text) - np.sum(list(vocab.values()))` assigned on top. -/
def vocab (text : List String) : List (String × ℕ) :=
  dictSet (mostCommonPairs text) "<unk>" (unkCount text)

/-- `idx2word = [word for word in vocab.keys()]`. -/
def idx2word (text : List String) : List String :=
  (vocab text).map Prod.fst

/-- The pairs of `word2idx = {word: i for i, word in enumerate(idx2word)}`. -/
def word2idxPairs (text : List String) : List (String × ℕ) :=
  (idx2word text).enum.map (fun p => (p.2, p.1))

/-- Lookup in the `word2idx` dict (`None` models a missing key). -/
def word2idx (text : List String) (w : String) : Option ℕ :=
  (word2idxPairs text).lookup w

/-- `vocab_size = len(idx2word)`. -/
def vocab_size (text : List String) : ℕ :=
  (idx2word text).length

/-- `word_counts = np.array([count for count in vocab.values()])`. -/
def word_counts (text : List String) : List ℕ :=
  (vocab text).map Prod.snd

/-- The smoothed sampling distribution of `text_preprocess`, exactly as the
code computes it: counts normalized by their sum, raised elementwise to the
power 3/4, then renormalized. -/
noncomputable def word_freqs (text : List String) : List ℝ :=
  let wc : List ℝ := (word_counts text).map (fun n : ℕ => (n : ℝ))
  let f1 := wc.map (fun x => x / wc.sum)
  let f2 := f1.map (fun x => x ^ ((3 : ℝ) / 4))
  f2.map (fun x => x / f2.sum)

/-- The distribution as the spec words it (refinement target, stated from the
spec, to be compared with `word_freqs`): raw per-word counts raised to the
0.75 power and renormalized. -/
noncomputable def specSmoothedFreqs (text : List String) : List ℝ :=
  let c : List ℝ := (word_counts text).map (fun n : ℕ => (n : ℝ) ^ ((3 : ℝ) / 4))
  c.map (fun x => x / c.sum)

/-- Encoding of one token, `word2idx.get(t, VOCAB_SIZE - 1)`: vocabulary words
map to their index, anything else to the last index. -/
def encodeToken (text : List String) (t : String) : ℕ :=
  (word2idx text t).getD (vocab_size text - 1)

/-- `self.text_encoded = [word2idx.get(t, VOCAB_SIZE-1) for t in text]`. -/
def text_encoded (text : List String) : List ℕ :=
  text.map (encodeToken text)

/-- The raw context positions of `__getitem__`:
`list(range(idx-C, idx)) + list(range(idx+1, idx+C+1))`, each reduced modulo
`len(text_encoded)` (Python `%` on a positive modulus agrees with `Int.emod`). -/
def posIndices (n : ℕ) (idx : ℕ) : List ℕ :=
  (((List.range C).map (fun j : ℕ => (idx : ℤ) - (C : ℤ) + (j : ℤ))) ++
    ((List.range C).map (fun j : ℕ => (idx : ℤ) + 1 + (j : ℤ)))).map
    (fun i => (i % (n : ℤ)).toNat)

/-- One `WordEmbeddingDataset.__getitem__(idx)` call. The multinomial sampler
`torch.multinomial(word_freqs, K * pos_words.shape[0], True)` draws with
replacement; it is modelled by an oracle `draws` giving the sampled vocabulary
index of each of the `K * pos_words.shape[0]` independent draws. The returned
triple is (center word, context word codes, negative sample codes). -/
def getitem (text : List String) (idx : ℕ) (draws : ℕ → ℕ) :
    ℕ × List ℕ × List ℕ :=
  let enc := text_encoded text
  let center_word := enc.getD idx 0
  let pos_words := (posIndices enc.length idx).map (fun p => enc.getD p 0)
  let neg_words := (List.range (K * pos_words.length)).map draws
  (center_word, pos_words, neg_words)

/-- Dot product of two embedding vectors. -/
noncomputable def dot (u v : List ℝ) : ℝ :=
  (List.zipWith (fun a b => a * b) u v).sum

/-- Real-number semantics of `F.logsigmoid`. -/
noncomputable def logsigmoid (x : ℝ) : ℝ :=
  -Real.log (1 + Real.exp (-x))

/-- Result of squeezing a rank-3 tensor: a tensor of rank at most two. -/
inductive STensor where
  | scalar (x : ℝ)
  | vec (v : List ℝ)
  | mat (m : List (List ℝ))

/-- `input_embedding.unsqueeze(2)`: a `B × E` tensor viewed as `B × E × 1`. -/
def unsqueeze2 (t : List (List ℝ)) : List (List (List ℝ)) :=
  t.map (fun v => v.map (fun x => [x]))

/-- Entry `j` of a matrix-vector style row product used by `matmul2`. -/
noncomputable def dotRC (row : List ℝ) (y : List (List ℝ)) (j : ℕ) : ℝ :=
  (List.zipWith (fun a col => a * col.getD j 0) row y).sum

/-- One matrix product of `torch.bmm`: an `n × m` times `m × p` product. -/
noncomputable def matmul2 (x y : List (List ℝ)) : List (List ℝ) :=
  x.map (fun row => (List.range (y.headD []).length).map (fun j => dotRC row y j))

/-- `torch.bmm`: batched matrix product. -/
noncomputable def bmm (a b : List (List (List ℝ))) : List (List (List ℝ)) :=
  List.zipWith matmul2 a b

/-- `Tensor.squeeze()` on the rank-3 `B × n × 1` results produced by `bmm`
with an unsqueezed operand: every dimension of size one is removed, so the
result has rank 2 (`B ≥ 2, n ≥ 2`), rank 1 (exactly one of `B`, `n` is 1) or
rank 0 (`B = n = 1`). -/
def squeeze (xs : List (List (List ℝ))) : STensor :=
  let flat := xs.map (fun r => r.map (fun c => c.headD 0))
  if flat.length = 0 then STensor.mat []
  else if flat.length = 1 then
    (if (flat.headD []).length = 1 then STensor.scalar ((flat.headD []).headD 0)
     else STensor.vec (flat.headD []))
  else if flat.all (fun r => r.length == 1) then
    STensor.vec (flat.map (fun r => r.headD 0))
  else STensor.mat flat

/-- Elementwise `F.logsigmoid` on a squeezed tensor. -/
noncomputable def logsigmoidT : STensor → STensor
  | STensor.scalar x => STensor.scalar (logsigmoid x)
  | STensor.vec v => STensor.vec (v.map logsigmoid)
  | STensor.mat m => STensor.mat (m.map (fun r => r.map logsigmoid))

/-- `Tensor.sum(1)`: valid on a rank-2 tensor, where it sums each row;
on a tensor of rank at most one, dimension 1 is out of range and PyTorch
raises an `IndexError`. -/
def sumDim1 : STensor → Except String STensor
  | STensor.scalar _ => Except.error "IndexError: dim 1 out of range"
  | STensor.vec _ => Except.error "IndexError: dim 1 out of range"
  | STensor.mat m => Except.ok (STensor.vec (m.map List.sum))

/-- Elementwise addition of two tensors of identical shape
(`log_pos + log_neg`; in the model only the same-shape case is needed). -/
def addT : STensor → STensor → Except String STensor
  | STensor.scalar x, STensor.scalar y => Except.ok (STensor.scalar (x + y))
  | STensor.vec v, STensor.vec w =>
    if v.length = w.length then
      Except.ok (STensor.vec (List.zipWith (fun a b => a + b) v w))
    else Except.error "RuntimeError: size mismatch"
  | _, _ => Except.error "RuntimeError: shape mismatch"

/-- Elementwise negation (`return -loss`). -/
noncomputable def negT : STensor → STensor
  | STensor.scalar x => STensor.scalar (-x)
  | STensor.vec v => STensor.vec (v.map (fun x => -x))
  | STensor.mat m => STensor.mat (m.map (fun r => r.map (fun x => -x)))

/-- `EmbeddingModel.forward(input_labels, pos_labels, neg_labels)`.
`inW` and `outW` are the rows of the input and output embedding tables;
`input_labels : [B]`, `pos_labels : [B, 2C]`, `neg_labels : [B, 2CK]`.
The steps mirror the source exactly: embedding lookups, `bmm` of the context
embeddings against the (negated, for negatives) unsqueezed center embedding,
`squeeze`, `logsigmoid`, `sum(1)` on each, their sum, and final negation.
The `sum(1)` calls are evaluated in source order, so a shape error in the
positive branch is reported first. -/
noncomputable def forward (inW outW : ℕ → List ℝ) (input_labels : List ℕ)
    (pos_labels neg_labels : List (List ℕ)) : Except String STensor :=
  let input_embedding := input_labels.map inW
  let pos_embedding := pos_labels.map (fun r => r.map outW)
  let neg_embedding := neg_labels.map (fun r => r.map outW)
  let log_pos0 := squeeze (bmm pos_embedding (unsqueeze2 input_embedding))
  let log_neg0 := squeeze (bmm neg_embedding
    (unsqueeze2 (input_embedding.map (fun v => v.map (fun x => -x)))))
  match sumDim1 (logsigmoidT log_pos0) with
  | Except.error e => Except.error e
  | Except.ok log_pos =>
    match sumDim1 (logsigmoidT log_neg0) with
    | Except.error e => Except.error e
    | Except.ok log_neg =>
      match addT log_pos log_neg with
      | Except.error e => Except.error e
      | Except.ok loss => Except.ok (negT loss)

/-- `Tensor.mean()`: the mean over all entries. -/
noncomputable def meanT : STensor → ℝ
  | STensor.scalar x => x
  | STensor.vec v => v.sum / (v.length : ℝ)
  | STensor.mat m => (m.map List.sum).sum / (((m.map List.length).sum : ℕ) : ℝ)

/-- The training loop reduction `loss = model(input, pos, neg).mean()`. -/
noncomputable def batchLoss (inW outW : ℕ → List ℝ) (input_labels : List ℕ)
    (pos_labels neg_labels : List (List ℕ)) : Except String ℝ :=
  (forward inW outW input_labels pos_labels neg_labels).map meanT

/-- Cosine similarity, as `sklearn.metrics.pairwise.cosine_similarity` of two
embedding rows. -/
noncomputable def cosSimilarity (u v : List ℝ) : ℝ :=
  dot u v / (Real.sqrt (dot u u) * Real.sqrt (dot v v))

/-- Cosine distance, as `scipy.spatial.distance.cosine`. -/
noncomputable def cosineDistance (u v : List ℝ) : ℝ :=
  1 - cosSimilarity u v

/-- Global names assigned by the notebook cells before the training-loop cell:
imports, hyperparameters, preprocessing results, dataset, model and the two
helper functions. Transcribed from the source; note that the preprocessing
cell binds `word2idx` and `idx2word`. -/
def preTrainingGlobalNames : List String :=
  ["torch", "nn", "F", "tud", "Parameter", "Counter", "np", "random", "math",
   "pd", "scipy", "sklearn", "cosine_similarity",
   "USE_CUDA", "NUM_CUDA", "SEED", "K", "C", "EPOCHS", "MAX_VOCAB_SIZE",
   "BATCH_SIZE", "LEARNING_RATE", "EMBEDDING_SIZE", "LOG_FILE",
   "TRAIN_FILE", "EVAL_FILE", "TEST_FILE",
   "word_tockenize", "text_preprocess",
   "text", "idx2word", "word2idx", "word_freqs", "word_counts", "VOCAB_SIZE",
   "WordEmbeddingDataset", "dataset", "dataloader", "iterloader",
   "EmbeddingModel", "model", "evaluate", "find_nearest"]

/-- Global names first assigned inside the training-loop cell (including names
assigned only inside the loop body, such as `embedding_weights`). -/
def trainingCellAssignedNames : List String :=
  ["optimizer", "e", "i", "input_labels", "pos_labels", "neg_labels",
   "loss", "fout", "embedding_weights", "sim_simlex", "sim_men", "sim_353"]

/-- Every global name the notebook ever assigns. -/
def notebookAssignedGlobals : List String :=
  preTrainingGlobalNames ++ trainingCellAssignedNames

/-- The value of the global name `word_to_idx` in the notebook: `none`,
because no cell ever assigns `word_to_idx` (the preprocessing cell assigns
`word2idx`), so reading it raises a `NameError`. -/
def notebookWordToIdxGlobal : Option (String → Option ℕ) := none

/-- The body of `evaluate` after the benchmark file has been parsed into
`rows` of (word1, word2, human score). For each row the code first evaluates
`word1 not in word_to_idx or word2 not in word_to_idx`; reading the global
`word_to_idx` when it is undefined (`none`) raises a `NameError` at that
point. A row with either word missing from the dict is skipped silently;
otherwise the model cosine similarity and the human score are appended.
Returns the collected (model similarities, human scores). -/
noncomputable def evaluateRows (wordToIdxGlobal : Option (String → Option ℕ))
    (embedding_weights : ℕ → List ℝ) :
    List (String × String × ℝ) → Except String (List ℝ × List ℝ)
  | [] => Except.ok ([], [])
  | (word1, word2, human) :: rest =>
    match wordToIdxGlobal with
    | none => Except.error "NameError: name word_to_idx is not defined"
    | some d =>
      match d word1, d word2 with
      | some i, some j =>
        match evaluateRows (some d) embedding_weights rest with
        | Except.ok (ms, hs) =>
          Except.ok (cosSimilarity (embedding_weights i) (embedding_weights j) :: ms,
                     human :: hs)
        | Except.error e => Except.error e
      | some _, none => evaluateRows (some d) embedding_weights rest
      | none, _ => evaluateRows (some d) embedding_weights rest

/-- `evaluate(filename, embedding_weights)`: collect similarities over the
parsed rows and return `scipy.stats.spearmanr(human_similarity,
model_similarity)`, modelled by an abstract total `spearman` function (scipy
returns a result object, NaN-valued on degenerate input). -/
noncomputable def evaluate (wordToIdxGlobal : Option (String → Option ℕ))
    (embedding_weights : ℕ → List ℝ) (spearman : List ℝ → List ℝ → ℝ × ℝ)
    (rows : List (String × String × ℝ)) : Except String (ℝ × ℝ) :=
  (evaluateRows wordToIdxGlobal embedding_weights rows).map
    (fun p => spearman p.2 p.1)

/-- Stable ascending insertion on index/key pairs, used to model
`np.argsort` below. -/
noncomputable def insertAsc (key : ℕ → ℝ) (i : ℕ) : List ℕ → List ℕ
  | [] => [i]
  | j :: js => if key j ≤ key i then j :: insertAsc key i js else i :: j :: js

/-- Ascending argsort of `[key 0, ..., key (n-1)]` (models
`np.argsort(cos_dis)`; ties are returned in index order). -/
noncomputable def argsortAsc (key : ℕ → ℝ) (n : ℕ) : List ℕ :=
  (List.range n).foldl (fun acc i => insertAsc key i acc) []

/-- `find_nearest(word)`. The first statement `index = word_to_idx[word]`
reads the global `word_to_idx`; the later statements read the globals
`embedding_weights` and `idx_to_word`. Each read of an unassigned global
(`none`) raises a `NameError` at that point, in statement order. -/
noncomputable def find_nearest (wordToIdxGlobal : Option (String → Option ℕ))
    (embeddingWeightsGlobal : Option (List (List ℝ)))
    (idxToWordGlobal : Option (List String)) (word : String) :
    Except String (List String) :=
  match wordToIdxGlobal with
  | none => Except.error "NameError: name word_to_idx is not defined"
  | some d =>
    match d word with
    | none => Except.error "KeyError"
    | some index =>
      match embeddingWeightsGlobal with
      | none => Except.error "NameError: name embedding_weights is not defined"
      | some ws =>
        let embedding := ws.getD index []
        let cos_dis := fun i => cosineDistance (ws.getD i []) embedding
        match idxToWordGlobal with
        | none => Except.error "NameError: name idx_to_word is not defined"
        | some iw =>
          Except.ok (((argsortAsc cos_dis ws.length).take 10).map
            (fun i => iw.getD i ""))

/-- A torch module as the notebook builds it: the `EmbeddingModel` (carrying
its two embedding tables), possibly wrapped in `nn.DataParallel`. -/
inductive TorchModule where
  | embeddingModel (inW outW : ℕ → List ℝ)
  | dataParallel (inner : TorchModule)

/-- Attribute lookup `model.input_embeddings`. On the plain `EmbeddingModel`
the method exists and yields the input embedding table. On the
`nn.DataParallel` wrapper the attribute is not among the wrapper's
parameters, buffers, submodules or class attributes, so `nn.Module.__getattr__`
raises an `AttributeError` — exactly the failure recorded in the notebook's
own output: AttributeError: DataParallel object has no attribute
input_embeddings. -/
def input_embeddings_attr : TorchModule → Except String (ℕ → List ℝ)
  | TorchModule.embeddingModel inW _ => Except.ok inW
  | TorchModule.dataParallel _ =>
    Except.error "AttributeError: DataParallel object has no attribute input_embeddings"

/-- The wrapping performed after model construction:
`if NUM_CUDA > 1: model = nn.DataParallel(model)`. -/
def wrapModel (numCuda : ℕ) (m : TorchModule) : TorchModule :=
  if 1 < numCuda then TorchModule.dataParallel m else m

/-- One training-loop iteration `i`, reduced to its control flow around the
periodic evaluation: every 2000th iteration runs
`embedding_weights = model.input_embeddings()` followed by the evaluation
calls; an exception from the attribute lookup propagates out of the
iteration. Other iterations only update the model, which always succeeds. -/
def trainIteration (m : TorchModule) (i : ℕ) : Except String Unit :=
  if i % 2000 = 0 then (input_embeddings_attr m).map (fun _ => ())
  else Except.ok ()

/-- Running the training loop over a list of iteration indices: an uncaught
exception in some iteration halts the loop (no later iteration runs). -/
def trainIterations (m : TorchModule) : List ℕ → Except String Unit
  | [] => Except.ok ()
  | i :: is =>
    match trainIteration m i with
    | Except.ok _ => trainIterations m is
    | Except.error e => Except.error e

/-! ### Python integer modulo, read back into natural arithmetic -/

/-- Python `%` on a nonnegative dividend: `(idx + k) % n` as naturals. -/
lemma emod_add_toNat (idx k n : ℕ) :
    (((idx : ℤ) + k) % (n : ℤ)).toNat = (idx + k) % n := by
  have h : ((idx : ℤ) + k) = ((idx + k : ℕ) : ℤ) := by push_cast; ring
  rw [h]
  norm_cast

/-- Python `%` on a dividend shifted down by `k ≤ n`: subtracting `k` and
reducing mod `n` equals adding `n - k` in natural arithmetic. -/
lemma emod_sub_toNat (idx k n : ℕ) (hk : k ≤ n) :
    (((idx : ℤ) - k) % (n : ℤ)).toNat = (idx + n - k) % n := by
  have hc : ((idx + n - k : ℕ) : ℤ) = (idx : ℤ) - k + n := by omega
  have h1 : ((idx : ℤ) - k) % (n : ℤ) = ((idx + n - k : ℕ) : ℤ) % (n : ℤ) := by
    rw [hc, Int.add_emod_self]
  rw [h1]
  norm_cast

/-- The context-position list written out: the window radius is the constant
`C = 3`, so the positions are the six neighbours of `idx` reduced mod `n`. -/
lemma posIndices_eq (n idx : ℕ) : posIndices n idx =
    [(((idx : ℤ) - 3) % (n : ℤ)).toNat, (((idx : ℤ) - 2) % (n : ℤ)).toNat,
     (((idx : ℤ) - 1) % (n : ℤ)).toNat, (((idx : ℤ) + 1) % (n : ℤ)).toNat,
     (((idx : ℤ) + 2) % (n : ℤ)).toNat, (((idx : ℤ) + 3) % (n : ℤ)).toNat] := by
  simp only [posIndices, C]
  norm_num [List.range_succ]
  refine ⟨?_, ?_, ?_, ?_⟩ <;> ring_nf

/-- Claim C2: `WordEmbeddingDataset.__getitem__` returns exactly `2*C` context
codes and exactly `K*2*C` negative codes, and the negative codes are the raw
multinomial draws taken verbatim — drawn with replacement and with no
rejection of the center or context words (a draw equal to either is kept
unchanged in the returned list). -/
theorem getitem_counts_and_no_rejection (text : List String) (idx : ℕ)
    (draws : ℕ → ℕ) (hidx : idx < text.length) :
    (getitem text idx draws).2.1.length = 2 * C ∧
    (getitem text idx draws).2.2.length = K * (2 * C) ∧
    (getitem text idx draws).2.2 = (List.range (K * (2 * C))).map draws := by
  have hlen : (posIndices (text_encoded text).length idx).length = 2 * C := by
    simp only [posIndices, List.length_map, List.length_append, List.length_range]
    omega
  refine ⟨?_, ?_, ?_⟩
  · simpa [getitem] using hlen
  · simp [getitem, hlen]
  · simp [getitem, hlen]

/-- Witness for `getitem_counts_and_no_rejection` at a concrete corpus,
position and draw oracle. -/
theorem getitem_counts_and_no_rejection_witness :
    (getitem ["a", "b", "c"] 1 (fun _ => 0)).2.1.length = 2 * C ∧
    (getitem ["a", "b", "c"] 1 (fun _ => 0)).2.2.length = K * (2 * C) ∧
    (getitem ["a", "b", "c"] 1 (fun _ => 0)).2.2 =
      (List.range (K * (2 * C))).map (fun _ => 0) :=
  getitem_counts_and_no_rejection ["a", "b", "c"] 1 (fun _ => 0) (by decide)

/-- Claim C3: the context positions are the `2*C` positions adjacent to the
center taken modulo the corpus length, wrapping circularly at both
boundaries: for `1 ≤ k ≤ C` (and `k ≤ n`) the position at distance `k` to the
left of the center is `(idx + n - k) % n` and at distance `k` to the right is
`(idx + k) % n`; in particular for radius 3 and a corpus of length 10,
position 0 has context positions `[7, 8, 9, 1, 2, 3]` — its left context
resolves to positions 7, 8 and 9. -/
theorem posIndices_circular_wrap (n idx k : ℕ) (hn : 0 < n) (hk1 : 1 ≤ k)
    (hkC : k ≤ C) (hkn : k ≤ n) :
    (posIndices n idx).length = 2 * C ∧
    (posIndices n idx).getD (C - k) 0 = (idx + n - k) % n ∧
    (posIndices n idx).getD (C + k - 1) 0 = (idx + k) % n ∧
    posIndices 10 0 = [7, 8, 9, 1, 2, 3] := by
  have hk3 : k ≤ 3 := hkC
  refine ⟨by rw [posIndices_eq]; simp [C], ?_, ?_, by decide⟩
  · interval_cases k
    · simpa [posIndices_eq, C, List.getD] using emod_sub_toNat idx 1 n (by omega)
    · simpa [posIndices_eq, C, List.getD] using emod_sub_toNat idx 2 n (by omega)
    · simpa [posIndices_eq, C, List.getD] using emod_sub_toNat idx 3 n (by omega)
  · interval_cases k <;>
      simpa [posIndices_eq, C, List.getD] using emod_add_toNat idx _ n

/-- Witness for `posIndices_circular_wrap` at the wrap example of the spec:
radius 3, corpus length 10, position 0, distance 3. -/
theorem posIndices_circular_wrap_witness :
    (posIndices 10 0).length = 2 * C ∧
    (posIndices 10 0).getD (C - 3) 0 = (0 + 10 - 3) % 10 ∧
    (posIndices 10 0).getD (C + 3 - 1) 0 = (0 + 3) % 10 ∧
    posIndices 10 0 = [7, 8, 9, 1, 2, 3] :=
  posIndices_circular_wrap 10 0 3 (by decide) (by decide) (by decide) (by decide)

/-- Claim C7 (code bug): `evaluate` is written to skip out-of-vocabulary
pairs silently and rank-correlate the rest, but as the notebook stands every
row's membership test reads the global `word_to_idx`, which no cell defines
(the preprocessing cell defines `word2idx`), so the first processed pair
raises a `NameError` instead. The second and third conjuncts show the
described behaviour of the same code the moment the dict name resolves: a
pair with an unseen word is skipped silently, a fully known pair contributes
its model cosine similarity and its human score. -/
theorem evaluate_silent_skip_blocked_by_name_error :
    evaluateRows notebookWordToIdxGlobal (fun _ => [1])
        [("apple", "banana", (1 : ℝ) / 2)] =
      Except.error "NameError: name word_to_idx is not defined" ∧
    evaluateRows (some (fun w => if w = "apple" then some 0 else none))
        (fun _ => [1]) [("apple", "banana", (1 : ℝ) / 2)] =
      Except.ok ([], []) ∧
    evaluateRows (some (fun w => if w = "apple" then some 0 else some 1))
        (fun i => if i = 0 then [1, 0] else [0, 1])
        [("apple", "banana", (1 : ℝ) / 2)] =
      Except.ok ([cosSimilarity [1, 0] [0, 1]], [(1 : ℝ) / 2]) := by
  refine ⟨rfl, ?_, ?_⟩
  · simp [evaluateRows]
  · simp [evaluateRows]

/-- Claim C8: with more than one CUDA device the model is wrapped in
`nn.DataParallel`, and then every periodic evaluation step (every 2000th
iteration) fails at `model.input_embeddings` with the attribute-lookup error,
and the error halts the training loop. -/
theorem dataParallel_eval_step_fails (numCuda : ℕ) (m : TorchModule) (i : ℕ)
    (iters : List ℕ) (hcuda : 1 < numCuda) (hi : i % 2000 = 0) :
    trainIteration (wrapModel numCuda m) i =
      Except.error "AttributeError: DataParallel object has no attribute input_embeddings" ∧
    trainIterations (wrapModel numCuda m) (i :: iters) =
      Except.error "AttributeError: DataParallel object has no attribute input_embeddings" := by
  have hw : wrapModel numCuda m = TorchModule.dataParallel m := by
    simp [wrapModel, hcuda]
  have h1 : trainIteration (wrapModel numCuda m) i =
      Except.error "AttributeError: DataParallel object has no attribute input_embeddings" := by
    rw [hw]
    simp [trainIteration, hi, input_embeddings_attr, Except.map]
  exact ⟨h1, by rw [trainIterations, h1]⟩

/-- Witness for `dataParallel_eval_step_fails`: two CUDA devices, the very
first iteration (the notebook's recorded crash point). -/
theorem dataParallel_eval_step_fails_witness :
    trainIteration (wrapModel 2 (TorchModule.embeddingModel (fun _ => []) (fun _ => []))) 0 =
      Except.error "AttributeError: DataParallel object has no attribute input_embeddings" ∧
    trainIterations (wrapModel 2 (TorchModule.embeddingModel (fun _ => []) (fun _ => [])))
        (0 :: [1, 2]) =
      Except.error "AttributeError: DataParallel object has no attribute input_embeddings" :=
  dataParallel_eval_step_fails 2 (TorchModule.embeddingModel (fun _ => []) (fun _ => []))
    0 [1, 2] (by decide) (by decide)

/-- Claim C9 (code bug): `find_nearest` is written to return the ten
vocabulary words of smallest cosine distance in ascending order with no
name-based exclusion (so the query itself, at self-distance zero, may
appear), but its first statement reads the global `word_to_idx`, which is
never defined, so every call raises a `NameError` — here at the notebook's
own query word. The second conjunct shows the described behaviour once the
undefined globals are bound: on a two-word vocabulary whose embedding rows
are identical, every candidate (the query `a` included) is at distance zero
and the query appears first in its own neighbour list. -/
theorem find_nearest_blocked_by_name_error :
    find_nearest notebookWordToIdxGlobal none none "monster" =
      Except.error "NameError: name word_to_idx is not defined" ∧
    find_nearest (some (fun w => if w = "a" then some 0 else some 1))
        (some [[1], [1]]) (some ["a", "b"]) "a" =
      Except.ok ["a", "b"] ∧
    cosineDistance [1] [1] = 0 := by
  have hd : cosineDistance [1] [1] = 0 := by
    simp [cosineDistance, cosSimilarity, dot]
  refine ⟨rfl, ?_, hd⟩
  simp only [find_nearest]
  norm_num
  simp [argsortAsc, insertAsc, List.range_succ, hd]

/-- Claim C10 (amended): the notebook never assigns the globals `word_to_idx`
or `idx_to_word` (the preprocessing cell assigns `word2idx` and `idx2word`),
and assigns `embedding_weights` only inside the training-loop cell; hence
every `find_nearest` call, and every `evaluate` call whose benchmark file
contributes at least one row, fails with a `NameError` before producing any
result. (On a benchmark file with no rows the loop body of `evaluate` never
runs and no name error is raised — see the counterexample.) -/
theorem undefined_globals_name_errors (rows : List (String × String × ℝ))
    (w : ℕ → List ℝ) (word : String) (ew : Option (List (List ℝ)))
    (hrows : rows ≠ []) :
    ("word_to_idx" ∉ notebookAssignedGlobals ∧
      "idx_to_word" ∉ notebookAssignedGlobals) ∧
    ("word2idx" ∈ preTrainingGlobalNames ∧
      "idx2word" ∈ preTrainingGlobalNames) ∧
    ("embedding_weights" ∉ preTrainingGlobalNames ∧
      "embedding_weights" ∈ trainingCellAssignedNames) ∧
    evaluateRows notebookWordToIdxGlobal w rows =
      Except.error "NameError: name word_to_idx is not defined" ∧
    find_nearest notebookWordToIdxGlobal ew none word =
      Except.error "NameError: name word_to_idx is not defined" := by
  refine ⟨by decide, by decide, by decide, ?_, rfl⟩
  match rows with
  | [] => exact absurd rfl hrows
  | (w1, w2, h) :: rest => rfl

/-- Counterexample to claim C10 as stated: on a benchmark file with zero data
rows, `evaluate`'s loop body never executes, so the call does not fail — it
returns a (degenerate) result instead of raising a name-resolution error. -/
theorem evaluate_empty_file_returns :
    evaluateRows notebookWordToIdxGlobal (fun _ => [1]) [] =
      Except.ok ([], []) := rfl

/-- Witness for `undefined_globals_name_errors` at a one-row benchmark file
and the notebook's query word. -/
theorem undefined_globals_name_errors_witness :
    ("word_to_idx" ∉ notebookAssignedGlobals ∧
      "idx_to_word" ∉ notebookAssignedGlobals) ∧
    ("word2idx" ∈ preTrainingGlobalNames ∧
      "idx2word" ∈ preTrainingGlobalNames) ∧
    ("embedding_weights" ∉ preTrainingGlobalNames ∧
      "embedding_weights" ∈ trainingCellAssignedNames) ∧
    evaluateRows notebookWordToIdxGlobal (fun _ => [1])
        [("apple", "pear", (1 : ℝ) / 2)] =
      Except.error "NameError: name word_to_idx is not defined" ∧
    find_nearest notebookWordToIdxGlobal none none "monster" =
      Except.error "NameError: name word_to_idx is not defined" :=
  undefined_globals_name_errors [("apple", "pear", (1 : ℝ) / 2)] (fun _ => [1])
    "monster" none (by simp)

/-! ### Vocabulary bookkeeping lemmas -/

/-- Counter keys are distinct. -/
lemma keysInOrder_nodup (text : List String) : (keysInOrder text).Nodup := by
  induction text with
  | nil => simp [keysInOrder]
  | cons w ws ih =>
    simp only [keysInOrder, List.nodup_cons]
    refine ⟨fun hmem => ?_, ih.filter _⟩
    have := (List.mem_filter.mp hmem).2
    simp at this

/-- Stable descending insertion permutes to a cons. -/
lemma insertDesc_perm (cnt : String → ℕ) (w : String) (l : List String) :
    (insertDesc cnt w l).Perm (w :: l) := by
  induction l with
  | nil => exact List.Perm.refl _
  | cons x xs ih =>
    by_cases h : cnt x < cnt w
    · simp [insertDesc, h]
    · simp only [insertDesc, if_neg h]
      exact (ih.cons x).trans (List.Perm.swap w x xs)

/-- Folding stable insertions permutes to appending onto the accumulator. -/
lemma foldl_insertDesc_perm (cnt : String → ℕ) (l : List String) :
    ∀ acc : List String,
      (l.foldl (fun a w => insertDesc cnt w a) acc).Perm (l ++ acc) := by
  induction l with
  | nil => intro acc; simp
  | cons w ws ih =>
    intro acc
    have h1 := ih (insertDesc cnt w acc)
    have h2 : (ws ++ insertDesc cnt w acc).Perm (ws ++ (w :: acc)) :=
      List.Perm.append_left ws (insertDesc_perm cnt w acc)
    have h3 : (ws ++ (w :: acc)).Perm (w :: (ws ++ acc)) := List.perm_middle
    simpa using (h1.trans h2).trans h3

/-- The sort inside `most_common` is a permutation of the counter keys. -/
lemma sortDesc_perm (cnt : String → ℕ) (l : List String) :
    (sortDesc cnt l).Perm l := by
  simpa [sortDesc] using foldl_insertDesc_perm cnt l []

/-- The kept most-common words are distinct. -/
lemma topWords_nodup (text : List String) : (topWords text).Nodup := by
  have h1 : (sortDesc (fun w => text.count w) (keysInOrder text)).Nodup :=
    ((sortDesc_perm _ _).nodup_iff).mpr (keysInOrder_nodup text)
  exact (List.take_sublist _ _).nodup h1

/-- Sum of an indicator over a duplicate-free list. -/
lemma sum_indicator_nodup (t : String) (l : List String) (hl : l.Nodup) :
    (l.map (fun w => if t = w then 1 else 0)).sum = if t ∈ l then 1 else 0 := by
  induction l with
  | nil => simp
  | cons x xs ih =>
    rcases List.nodup_cons.mp hl with ⟨hx, hxs⟩
    by_cases hxt : t = x
    · subst hxt
      have hz : (xs.map (fun w => if t = w then 1 else 0)).sum = 0 := by
        apply List.sum_eq_zero
        intro y hy
        obtain ⟨w, hw, rfl⟩ := List.mem_map.mp hy
        have hwx : t ≠ w := fun h => hx (h ▸ hw)
        simp [hwx]
      simp [hz]
    · have hm : (t ∈ x :: xs) = (t ∈ xs) := by
        simp only [List.mem_cons, eq_iff_iff, or_iff_right_iff_imp]
        intro h
        exact absurd h hxt
      simp [hxt, ih hxs, hm]

/-- Sums of pointwise sums of natural-valued maps split. -/
lemma sum_map_add_nat (l : List String) (f g : String → ℕ) :
    (l.map (fun w => f w + g w)).sum = (l.map f).sum + (l.map g).sum := by
  induction l with
  | nil => simp
  | cons x xs ih => simp [ih]; omega

/-- Summing the corpus counts of distinct words never exceeds the corpus
length. -/
lemma count_sum_le (l : List String) (hl : l.Nodup) :
    ∀ text : List String, (l.map (fun w => text.count w)).sum ≤ text.length := by
  intro text
  induction text with
  | nil => simp
  | cons t ts ih =>
    have hc : ∀ w : String, (t :: ts).count w = ts.count w + (if t = w then 1 else 0) := by
      intro w
      simp [List.count_cons]
    calc (l.map (fun w => (t :: ts).count w)).sum
        = (l.map (fun w => ts.count w + (if t = w then 1 else 0))).sum := by
          simp only [hc]
      _ = (l.map (fun w => ts.count w)).sum +
            (l.map (fun w => if t = w then 1 else 0)).sum := sum_map_add_nat l _ _
      _ ≤ ts.length + 1 := by
          have h2 := sum_indicator_nodup t l hl
          have h3 : (l.map (fun w => if t = w then 1 else 0)).sum ≤ 1 := by
            rw [h2]; split <;> omega
          omega
      _ = (t :: ts).length := by simp

/-- Keys of the kept most-common pairs are exactly the kept words. -/
lemma mostCommonPairs_fst (text : List String) :
    (mostCommonPairs text).map Prod.fst = topWords text := by
  simp [mostCommonPairs, List.map_map, Function.comp_def]

/-- Values of the kept most-common pairs are the corpus counts of the kept
words. -/
lemma mostCommonPairs_snd (text : List String) :
    (mostCommonPairs text).map Prod.snd = (topWords text).map (fun w => text.count w) := by
  simp [mostCommonPairs, List.map_map, Function.comp_def]

/-- The kept counts never exceed the corpus length. -/
lemma mostCommon_sum_le (text : List String) :
    ((mostCommonPairs text).map Prod.snd).sum ≤ text.length := by
  rw [mostCommonPairs_snd]
  exact count_sum_le (topWords text) (topWords_nodup text) text

/-- When the literal token `<unk>` is not among the kept most-common words,
the `vocab["<unk>"] = ...` dict assignment appends a fresh entry. -/
lemma vocab_eq_append (text : List String) (h : "<unk>" ∉ topWords text) :
    vocab text = mostCommonPairs text ++ [("<unk>", unkCount text)] := by
  have hmem : "<unk>" ∉ (mostCommonPairs text).map Prod.fst := by
    rw [mostCommonPairs_fst]
    exact h
  unfold vocab dictSet
  rw [if_neg hmem]

/-- Claim C4 (amended): whenever the literal token `<unk>` is not itself one
of the kept most-common words — in particular for every corpus that does not
contain the token `<unk>` — the vocabulary counts produced by
`text_preprocess`, including the `<unk>` residual bucket, sum to the total
number of corpus tokens. -/
theorem vocab_counts_sum_total (text : List String) (h : "<unk>" ∉ topWords text) :
    ((vocab text).map Prod.snd).sum = text.length := by
  have hS := mostCommon_sum_le text
  rw [vocab_eq_append text h]
  simp only [List.map_append, List.sum_append, List.map_cons, List.sum_cons,
    List.map_nil, List.sum_nil]
  unfold unkCount
  omega

/-- Counterexample to claim C4 as stated: for the one-token corpus whose only
token is the literal string `<unk>`, the `vocab["<unk>"] = len(text) - sum`
assignment overwrites the counted entry with 0, so the counts sum to 0 while
the corpus has 1 token. -/
theorem vocab_counts_sum_counterexample :
    ((vocab ["<unk>"]).map Prod.snd).sum = 0 ∧
    ((vocab ["<unk>"]).map Prod.snd).sum ≠ (["<unk>"] : List String).length := by
  decide

/-- Witness for `vocab_counts_sum_total` on a small concrete corpus. -/
theorem vocab_counts_sum_total_witness :
    ((vocab ["a", "b", "a"]).map Prod.snd).sum = (["a", "b", "a"] : List String).length :=
  vocab_counts_sum_total ["a", "b", "a"] (by decide)

/-- Dict lookup misses when the key is absent. -/
lemma lookup_eq_none_of_not_mem (w : String) (d : List (String × ℕ))
    (hw : w ∉ d.map Prod.fst) : List.lookup w d = none := by
  induction d with
  | nil => rfl
  | cons p rest ih =>
    obtain ⟨k, v⟩ := p
    simp only [List.map_cons, List.mem_cons, not_or] at hw
    simp [List.lookup, beq_eq_false_iff_ne.mpr hw.1, ih hw.2]

/-- Dict lookup skips a prefix that misses the key. -/
lemma lookup_append_of_not_mem (w : String) (d₁ d₂ : List (String × ℕ))
    (hw : w ∉ d₁.map Prod.fst) :
    List.lookup w (d₁ ++ d₂) = List.lookup w d₂ := by
  induction d₁ with
  | nil => rfl
  | cons p rest ih =>
    obtain ⟨k, v⟩ := p
    simp only [List.map_cons, List.mem_cons, not_or] at hw
    simp [List.lookup, beq_eq_false_iff_ne.mpr hw.1, ih hw.2]

/-- Claim C6 (amended): the `word2idx` dict always enumerates contiguous
indices `[0, vocab_size)`; whenever the literal token `<unk>` is not among
the kept most-common words, the out-of-vocabulary entry `<unk>` occupies the
last vocabulary position with index `vocab_size - 1`, and every token absent
from the vocabulary is encoded to that last index. -/
theorem vocab_index_layout (text : List String) (t : String)
    (h : "<unk>" ∉ topWords text) :
    (word2idxPairs text).map Prod.snd = List.range (vocab_size text) ∧
    (idx2word text).getLast? = some "<unk>" ∧
    word2idx text "<unk>" = some (vocab_size text - 1) ∧
    (t ∉ idx2word text → encodeToken text t = vocab_size text - 1) := by
  have hid : idx2word text = topWords text ++ ["<unk>"] := by
    rw [idx2word, vocab_eq_append text h]
    simp [mostCommonPairs_fst]
  refine ⟨?_, ?_, ?_, ?_⟩
  · simp [word2idxPairs, vocab_size, List.map_map, Function.comp_def,
      List.enum_map_fst]
  · rw [hid]
    exact List.getLast?_concat _
  · have hpairs : word2idxPairs text =
        (topWords text).enum.map (fun p => (p.2, p.1)) ++
          [("<unk>", (topWords text).length)] := by
      rw [word2idxPairs, hid, List.enum_append]
      simp [List.enumFrom]
    have hkeys : "<unk>" ∉ ((topWords text).enum.map (fun p => (p.2, p.1))).map Prod.fst := by
      simpa [List.map_map, Function.comp_def, List.enum_map_snd] using h
    rw [word2idx, hpairs, lookup_append_of_not_mem _ _ _ hkeys]
    simp [List.lookup, vocab_size, hid]
  · intro ht
    have hkeys2 : t ∉ (word2idxPairs text).map Prod.fst := by
      simpa [word2idxPairs, List.map_map, Function.comp_def, List.enum_map_snd]
        using ht
    rw [encodeToken, word2idx, lookup_eq_none_of_not_mem _ _ hkeys2]
    rfl

/-- Counterexample to claim C6 as stated: in the corpus
`["a", "a", "<unk>", "b"]` the literal token `<unk>` is counted among the
most-common words, so the `vocab["<unk>"]` assignment updates it in place:
`<unk>` sits at index 1, not at the last index `vocab_size - 1 = 2`. -/
theorem unk_not_last_counterexample :
    idx2word ["a", "a", "<unk>", "b"] = ["a", "<unk>", "b"] ∧
    word2idx ["a", "a", "<unk>", "b"] "<unk>" = some 1 ∧
    vocab_size ["a", "a", "<unk>", "b"] = 3 ∧
    (idx2word ["a", "a", "<unk>", "b"]).getLast? ≠ some "<unk>" := by
  decide

/-- Witness for `vocab_index_layout` on a small concrete corpus and an
out-of-vocabulary token. -/
theorem vocab_index_layout_witness :
    (word2idxPairs ["a", "b"]).map Prod.snd = List.range (vocab_size ["a", "b"]) ∧
    (idx2word ["a", "b"]).getLast? = some "<unk>" ∧
    word2idx ["a", "b"] "<unk>" = some (vocab_size ["a", "b"] - 1) ∧
    encodeToken ["a", "b"] "zzz" = vocab_size ["a", "b"] - 1 :=
  ⟨(vocab_index_layout ["a", "b"] "zzz" (by decide)).1,
   (vocab_index_layout ["a", "b"] "zzz" (by decide)).2.1,
   (vocab_index_layout ["a", "b"] "zzz" (by decide)).2.2.1,
   (vocab_index_layout ["a", "b"] "zzz" (by decide)).2.2.2 (by decide)⟩

/-! ### The smoothed sampling distribution -/

/-- A nonnegative list with positive sum has a positive entry. -/
lemma exists_pos_of_sum_pos (wc : List ℝ) (hnn : ∀ x ∈ wc, 0 ≤ x)
    (hpos : 0 < wc.sum) : ∃ x ∈ wc, 0 < x := by
  by_contra hno
  push_neg at hno
  have hz : wc.sum = 0 :=
    List.sum_eq_zero (fun x hx => le_antisymm (hno x hx) (hnn x hx))
  linarith

/-- The 3/4-power sums of a nonnegative list with a positive entry are
positive. -/
lemma rpow_sum_pos (wc : List ℝ) (hnn : ∀ x ∈ wc, 0 ≤ x)
    (hex : ∃ x ∈ wc, 0 < x) :
    0 < (wc.map (fun x => x ^ ((3 : ℝ) / 4))).sum := by
  obtain ⟨x0, hmem, hx0⟩ := hex
  have hmem2 : (x0 ^ ((3 : ℝ) / 4)) ∈ wc.map (fun x => x ^ ((3 : ℝ) / 4)) :=
    List.mem_map_of_mem _ hmem
  have hle : (x0 ^ ((3 : ℝ) / 4)) ≤ (wc.map (fun x => x ^ ((3 : ℝ) / 4))).sum :=
    List.single_le_sum
      (fun y hy => by
        obtain ⟨z, hz, rfl⟩ := List.mem_map.mp hy
        exact Real.rpow_nonneg (hnn z hz) _) _ hmem2
  have hpos : 0 < x0 ^ ((3 : ℝ) / 4) := Real.rpow_pos_of_pos hx0 _
  linarith

/-- Any list divided by its nonzero sum sums to one. -/
lemma sum_div_sum_eq_one (c : List ℝ) (hc : c.sum ≠ 0) :
    (c.map (fun x => x / c.sum)).sum = 1 := by
  have hfun : (fun x : ℝ => x / c.sum) = (fun x : ℝ => x * (c.sum)⁻¹) :=
    funext (fun x => div_eq_mul_inv x _)
  rw [hfun]
  have := List.sum_map_mul_right c (fun x : ℝ => x) (c.sum)⁻¹
  simpa [List.map_id] using this.trans (by simp [mul_inv_cancel₀ hc])

/-- Normalising, taking the 3/4 power and renormalising equals taking the
3/4 power of the raw values and normalising once: the inner normalisation
factors out of the power and cancels. -/
lemma code_freqs_eq_spec (wc : List ℝ) (hnn : ∀ x ∈ wc, 0 ≤ x)
    (hpos : 0 < wc.sum) :
    ((wc.map (fun x => x / wc.sum)).map (fun x => x ^ ((3 : ℝ) / 4))).map
        (fun x => x /
          ((wc.map (fun x => x / wc.sum)).map (fun x => x ^ ((3 : ℝ) / 4))).sum)
      = (wc.map (fun x => x ^ ((3 : ℝ) / 4))).map
          (fun x => x / (wc.map (fun x => x ^ ((3 : ℝ) / 4))).sum) := by
  have hf2 : (wc.map (fun x => x / wc.sum)).map (fun x => x ^ ((3 : ℝ) / 4))
      = wc.map (fun x => x ^ ((3 : ℝ) / 4) * (wc.sum ^ ((3 : ℝ) / 4))⁻¹) := by
    rw [List.map_map]
    refine List.map_congr_left (fun x hx => ?_)
    simp only [Function.comp_apply]
    rw [Real.div_rpow (hnn x hx) hpos.le, div_eq_mul_inv]
  have hT0 : 0 < (wc.map (fun x => x ^ ((3 : ℝ) / 4))).sum :=
    rpow_sum_pos wc hnn (exists_pos_of_sum_pos wc hnn hpos)
  have htinv : ((wc.sum ^ ((3 : ℝ) / 4))⁻¹ : ℝ) ≠ 0 := by positivity
  rw [hf2, List.sum_map_mul_right, List.map_map, List.map_map]
  refine List.map_congr_left (fun x _ => ?_)
  simp only [Function.comp_apply]
  exact mul_div_mul_right _ _ htinv

/-- Entry-level positivity of the renormalised 3/4-power list. -/
lemma getD_normalized_rpow_pos (cN : List ℕ) (i : ℕ) (hi : i < cN.length)
    (hc : 0 < cN.getD i 0)
    (hT : 0 < (cN.map (fun n : ℕ => ((n : ℝ)) ^ ((3 : ℝ) / 4))).sum) :
    0 < ((cN.map (fun n : ℕ => ((n : ℝ)) ^ ((3 : ℝ) / 4))).map
          (fun x => x / (cN.map (fun n : ℕ => ((n : ℝ)) ^ ((3 : ℝ) / 4))).sum)).getD i 0 := by
  have hentry : ((cN.map (fun n : ℕ => ((n : ℝ)) ^ ((3 : ℝ) / 4))).map
        (fun x => x / (cN.map (fun n : ℕ => ((n : ℝ)) ^ ((3 : ℝ) / 4))).sum)).getD i 0
      = ((cN.getD i 0 : ℝ)) ^ ((3 : ℝ) / 4) /
          (cN.map (fun n : ℕ => ((n : ℝ)) ^ ((3 : ℝ) / 4))).sum := by
    rw [List.getD_eq_getElem?_getD, List.getElem?_map, List.getElem?_map,
        List.getElem?_eq_getElem hi, List.getD_eq_getElem?_getD,
        List.getElem?_eq_getElem hi]
    rfl
  rw [hentry]
  have hcast : (0 : ℝ) < (cN.getD i 0 : ℝ) := by exact_mod_cast hc
  exact div_pos (Real.rpow_pos_of_pos hcast _) hT

/-- Claim C5 (amended): for every corpus whose vocabulary has at least one
nonzero raw count (every corpus containing at least one token, except the
degenerate corpora whose whole mass is overwritten by the `<unk>`
assignment), the sampling distribution the code computes equals the raw
counts raised to the 0.75 power and renormalised, sums exactly to 1 (hence
to 1 within the claimed 1e-6 tolerance), and is strictly positive at every
vocabulary entry with nonzero raw count. -/
theorem word_freqs_smoothed_distribution (text : List String)
    (h : 0 < (word_counts text).sum) :
    word_freqs text = specSmoothedFreqs text ∧
    (word_freqs text).sum = 1 ∧
    |(word_freqs text).sum - 1| ≤ 1e-6 ∧
    (∀ i, i < (word_counts text).length → 0 < (word_counts text).getD i 0 →
      0 < (word_freqs text).getD i 0) := by
  have hnn : ∀ x ∈ (word_counts text).map (fun n : ℕ => (n : ℝ)), 0 ≤ x := by
    intro x hx
    obtain ⟨n, _, rfl⟩ := List.mem_map.mp hx
    positivity
  have hpos : 0 < ((word_counts text).map (fun n : ℕ => (n : ℝ))).sum := by
    rw [← Nat.cast_list_sum]
    exact_mod_cast h
  have hT0 : 0 < ((word_counts text).map (fun n : ℕ => ((n : ℝ)) ^ ((3 : ℝ) / 4))).sum := by
    have := rpow_sum_pos ((word_counts text).map (fun n : ℕ => (n : ℝ))) hnn
      (exists_pos_of_sum_pos _ hnn hpos)
    simpa [List.map_map, Function.comp_def] using this
  have heq : word_freqs text = specSmoothedFreqs text := by
    have := code_freqs_eq_spec ((word_counts text).map (fun n : ℕ => (n : ℝ))) hnn hpos
    simpa [word_freqs, specSmoothedFreqs, List.map_map, Function.comp_def] using this
  have hsum : (word_freqs text).sum = 1 := by
    rw [heq]
    have := sum_div_sum_eq_one
      ((word_counts text).map (fun n : ℕ => ((n : ℝ)) ^ ((3 : ℝ) / 4))) (ne_of_gt hT0)
    simpa [specSmoothedFreqs] using this
  refine ⟨heq, hsum, by rw [hsum]; norm_num, ?_⟩
  intro i hi hc
  rw [heq]
  have := getD_normalized_rpow_pos (word_counts text) i hi hc hT0
  simpa [specSmoothedFreqs] using this

/-- Counterexample to claim C5 as stated: for the empty corpus the only
vocabulary entry is the `<unk>` bucket with count 0, the normalisations
divide by zero, and the resulting distribution is `[0]` — its sum is 0, not
1 within 1e-6 (NumPy produces NaN at the same spot). -/
theorem word_freqs_empty_corpus :
    word_freqs [] = [0] ∧ ¬ (|(word_freqs []).sum - 1| ≤ 1e-6) := by
  have hv : word_counts ([] : List String) = [0] := by decide
  have h1 : word_freqs [] = [0] := by
    simp [word_freqs, hv, Real.zero_rpow (show ((3 : ℝ) / 4) ≠ 0 by norm_num)]
  refine ⟨h1, ?_⟩
  rw [h1]
  norm_num

/-- Witness for `word_freqs_smoothed_distribution` on the one-token corpus. -/
theorem word_freqs_smoothed_distribution_witness :
    word_freqs ["a"] = specSmoothedFreqs ["a"] ∧
    (word_freqs ["a"]).sum = 1 ∧
    0 < (word_freqs ["a"]).getD 0 0 :=
  ⟨(word_freqs_smoothed_distribution ["a"] (by decide)).1,
   (word_freqs_smoothed_distribution ["a"] (by decide)).2.1,
   (word_freqs_smoothed_distribution ["a"] (by decide)).2.2.2 0 (by decide) (by decide)⟩

/-! ### The model forward pass -/

/-- The per-example loss vector as the spec words it (refinement target,
stated from the spec, to be compared with `forward`): for each example, minus
the sum over the context positions of the log-sigmoid of the center/context
dot product, plus the sum over the negative positions of the log-sigmoid of
the negated center/negative dot product. -/
noncomputable def specLossVec (inW outW : ℕ → List ℝ) (il : List ℕ)
    (pl nl : List (List ℕ)) : List ℝ :=
  List.zipWith3 (fun i P N =>
    -((P.map (fun j => logsigmoid (dot (outW j) (inW i)))).sum +
      (N.map (fun j => logsigmoid (-(dot (outW j) (inW i))))).sum)) il pl nl

/-- Dotting against an elementwise-negated vector negates the dot product. -/
lemma dot_map_neg (u : List ℝ) : ∀ v : List ℝ,
    dot u (v.map (fun x => -x)) = -dot u v := by
  induction u with
  | nil => intro v; simp [dot]
  | cons a u ih =>
    intro v
    cases v with
    | nil => simp [dot]
    | cons b v =>
      have := ih v
      simp only [dot, List.map_cons, List.zipWith_cons_cons, List.sum_cons] at this ⊢
      rw [this]
      ring

/-- The single column of the `bmm` against an unsqueezed vector is the plain
dot product. -/
lemma dotRC_unsqueeze (u v : List ℝ) :
    dotRC u (v.map (fun x => [x])) 0 = dot u v := by
  unfold dotRC dot
  rw [List.zipWith_map_right]
  simp

/-- One batch entry of `bmm(pos_embedding, input_embedding.unsqueeze(2))`:
an `n × E` times `E × 1` product, i.e. the column of dot products. -/
lemma matmul2_unsqueeze (P : List ℕ) (W : ℕ → List ℝ) (w : List ℝ)
    (hw : w ≠ []) :
    matmul2 (P.map W) (w.map (fun x => [x])) = P.map (fun j => [dot (W j) w]) := by
  have hy : ((w.map (fun x => ([x] : List ℝ))).headD []).length = 1 := by
    obtain ⟨a, w', rfl⟩ := List.exists_cons_of_ne_nil hw
    simp
  unfold matmul2
  rw [List.map_map]
  refine List.map_congr_left (fun j _ => ?_)
  rw [hy, show List.range 1 = [0] by decide]
  simp [dotRC_unsqueeze]

/-- `bmm` of looked-up context embeddings against the unsqueezed per-example
embeddings, entrywise. -/
lemma bmm_unsqueeze (pl : List (List ℕ)) (il : List ℕ) (W emb : ℕ → List ℝ)
    (hemb : ∀ i, emb i ≠ []) :
    bmm (pl.map (fun r => r.map W)) (unsqueeze2 (il.map emb))
      = List.zipWith (fun P i => P.map (fun j => [dot (W j) (emb i)])) pl il := by
  unfold bmm unsqueeze2
  rw [List.map_map, List.zipWith_map_left, List.zipWith_map_right]
  have hfun : (fun (P : List ℕ) (i : ℕ) =>
        matmul2 (P.map W) (((fun v : List ℝ => v.map (fun x => [x])) ∘ emb) i))
      = fun P i => P.map (fun j => [dot (W j) (emb i)]) := by
    funext P i
    exact matmul2_unsqueeze P W (emb i) (hemb i)
  rw [hfun]

/-- Rewriting a `zipWith` of wrapped rows as a wrapped `zipWith` of rows. -/
lemma zipWith_wrap_eq (g : List ℕ → ℕ → List ℝ) (pl : List (List ℕ))
    (il : List ℕ) :
    List.zipWith (fun P i => (g P i).map (fun x => [x])) pl il
      = (List.zipWith g pl il).map (fun r => r.map (fun x => ([x] : List ℝ))) := by
  rw [List.map_zipWith]

/-- `squeeze` on a `B × n × 1` tensor with `B ≥ 2` rows whose first row does
not have length one: only the trailing singleton dimension is removed. -/
lemma squeeze_mat_of (r0 r1 : List ℝ) (rs : List (List ℝ))
    (h : r0.length ≠ 1) :
    squeeze ((r0 :: r1 :: rs).map (fun r => r.map (fun x => [x])))
      = STensor.mat (r0 :: r1 :: rs) := by
  have hflat : ((r0 :: r1 :: rs).map (fun r => r.map (fun x => ([x] : List ℝ)))).map
      (fun r => r.map (fun c => c.headD 0)) = r0 :: r1 :: rs := by
    simp [List.map_map, Function.comp_def]
  simp only [squeeze]
  rw [hflat]
  simp [List.all_cons, beq_eq_false_iff_ne.mpr h]

/-- `F.logsigmoid(...)` then `.sum(1)` on a rank-2 tensor: per-row sums. -/
lemma sumDim1_logsigmoidT_mat (rows : List (List ℝ)) :
    sumDim1 (logsigmoidT (STensor.mat rows))
      = Except.ok (STensor.vec (rows.map (fun r => (r.map logsigmoid).sum))) := by
  simp [sumDim1, logsigmoidT, List.map_map, Function.comp_def]

/-- Negated sums of two parallel `zipWith`s collapse into one `zipWith3`. -/
lemma zipWith_add_neg_zipWith3 (F G : List ℕ → ℕ → ℝ) :
    ∀ (il : List ℕ) (pl nl : List (List ℕ)),
      List.zipWith (fun a b => -(a + b))
          (List.zipWith F pl il) (List.zipWith G nl il)
        = List.zipWith3 (fun i P N => -(F P i + G N i)) il pl nl := by
  intro il
  induction il with
  | nil =>
    intro pl nl
    cases pl <;> cases nl <;> rfl
  | cons i il ih =>
    intro pl nl
    cases pl with
    | nil => rfl
    | cons p pl =>
      cases nl with
      | nil => rfl
      | cons q nl =>
        simp only [List.zipWith_cons_cons, List.zipWith3, ih]

/-- Length of the specification loss vector under matching batch shapes. -/
lemma specLossVec_length (inW outW : ℕ → List ℝ) :
    ∀ (il : List ℕ) (pl nl : List (List ℕ)),
      pl.length = il.length → nl.length = il.length →
      (specLossVec inW outW il pl nl).length = il.length := by
  intro il
  induction il with
  | nil =>
    intro pl nl _ _
    cases pl <;> cases nl <;> rfl
  | cons i il ih =>
    intro pl nl hpl hnl
    cases pl with
    | nil => simp at hpl
    | cons p pl =>
      cases nl with
      | nil => simp at hnl
      | cons q nl =>
        simp only [List.length_cons] at hpl hnl
        have := ih pl nl (by omega) (by omega)
        simp only [specLossVec, List.zipWith3, List.length_cons] at this ⊢
        omega

/-- Fusing the per-row log-sigmoid sums into the row `zipWith`. -/
lemma map_sum_logsigmoid_zipWith (g : ℕ → ℕ → ℝ) (pl : List (List ℕ))
    (il : List ℕ) :
    (List.zipWith (fun P i => P.map (fun j => g i j)) pl il).map
        (fun r => (r.map logsigmoid).sum)
      = List.zipWith (fun P i => (P.map (fun j => logsigmoid (g i j))).sum) pl il := by
  rw [List.map_zipWith]
  have hfun : (fun (P : List ℕ) (i : ℕ) => ((P.map (fun j => g i j)).map logsigmoid).sum)
      = fun P i => (P.map (fun j => logsigmoid (g i j))).sum := by
    funext P i
    rw [List.map_map]
    rfl
  rw [hfun]

/-- Pulling the singleton-wrapping out of a row `zipWith`. -/
lemma zipWith_map_wrap (g : ℕ → ℕ → ℝ) (pl : List (List ℕ)) (il : List ℕ) :
    List.zipWith (fun P i => P.map (fun j => [g i j])) pl il
      = (List.zipWith (fun P i => P.map (fun j => g i j)) pl il).map
          (fun r => r.map (fun x => ([x] : List ℝ))) := by
  rw [List.map_zipWith]
  have hfun : (fun (P : List ℕ) (i : ℕ) => P.map (fun j => ([g i j] : List ℝ)))
      = fun P i => (P.map (fun j => g i j)).map (fun x => [x]) := by
    funext P i
    rw [List.map_map]
    rfl
  rw [hfun]

/-- Length-based form of `squeeze_mat_of`. -/
lemma squeeze_mat_of_len (rows : List (List ℝ)) (h2 : 2 ≤ rows.length)
    (h1 : (rows.headD []).length ≠ 1) :
    squeeze (rows.map (fun r => r.map (fun x => [x]))) = STensor.mat rows := by
  match rows, h2 with
  | r0 :: r1 :: rs, _ => exact squeeze_mat_of r0 r1 rs (by simpa using h1)

/-- Claim C1 (amended): for every batch of at least two examples whose rows
have the dataset shapes (`2*C` context indices and `K*2*C` negative indices
per example, nonempty embedding rows), `EmbeddingModel.forward` returns the
unreduced per-example loss vector of length `batch_size` whose entry for each
example is the negative of (the sum over the `2*C` context positions of the
log-sigmoid of the center/context dot product, plus the sum over the `K*2*C`
negative positions of the log-sigmoid of the negated center/negative dot
product), and the caller's reduction `model(...).mean()` is the mean — the
sum of that vector divided by the batch size. For a single-example batch
`forward` instead raises a dimension error (see
the single-example counterexample): `squeeze()` drops the batch dimension
too. -/
theorem forward_per_example_loss (inW outW : ℕ → List ℝ) (il : List ℕ)
    (pl nl : List (List ℕ)) (hB : 2 ≤ il.length) (hpl : pl.length = il.length)
    (hnl : nl.length = il.length) (hpr : ∀ r ∈ pl, r.length = 2 * C)
    (hnr : ∀ r ∈ nl, r.length = K * (2 * C)) (hin : ∀ i, inW i ≠ []) :
    forward inW outW il pl nl
      = Except.ok (STensor.vec (specLossVec inW outW il pl nl)) ∧
    (specLossVec inW outW il pl nl).length = il.length ∧
    batchLoss inW outW il pl nl
      = Except.ok ((specLossVec inW outW il pl nl).sum / (il.length : ℝ)) := by
  have hlen : (specLossVec inW outW il pl nl).length = il.length :=
    specLossVec_length inW outW il pl nl hpl hnl
  obtain ⟨i0, il', rfl⟩ := List.exists_cons_of_ne_nil
    (show il ≠ [] by intro h; subst h; simp at hB)
  obtain ⟨i1, il2, rfl⟩ := List.exists_cons_of_ne_nil
    (show il' ≠ [] by intro h; subst h; simp at hB)
  obtain ⟨p0, pl', rfl⟩ := List.exists_cons_of_ne_nil
    (show pl ≠ [] by
      intro h; subst h
      simp only [List.length_nil, List.length_cons] at hpl
      omega)
  obtain ⟨p1, pl2, rfl⟩ := List.exists_cons_of_ne_nil
    (show pl' ≠ [] by
      intro h; subst h
      simp only [List.length_nil, List.length_cons] at hpl
      omega)
  obtain ⟨q0, nl', rfl⟩ := List.exists_cons_of_ne_nil
    (show nl ≠ [] by
      intro h; subst h
      simp only [List.length_nil, List.length_cons] at hnl
      omega)
  obtain ⟨q1, nl2, rfl⟩ := List.exists_cons_of_ne_nil
    (show nl' ≠ [] by
      intro h; subst h
      simp only [List.length_nil, List.length_cons] at hnl
      omega)
  simp only [List.length_cons] at hpl hnl
  have hemb2 : ∀ i, ((fun v : List ℝ => v.map (fun x => -x)) ∘ inW) i ≠ [] := by
    intro i
    simp [hin i]
  have hp0 : p0.length = 2 * C := hpr p0 (by simp)
  have hq0 : q0.length = K * (2 * C) := hnr q0 (by simp)
  have hrowheadP : ((List.zipWith
      (fun P i => P.map (fun j => dot (outW j) (inW i)))
      (p0 :: p1 :: pl2) (i0 :: i1 :: il2)).headD []).length ≠ 1 := by
    simp [hp0, C]
  have hrowheadN : ((List.zipWith
      (fun P i => P.map (fun j => -(dot (outW j) (inW i))))
      (q0 :: q1 :: nl2) (i0 :: i1 :: il2)).headD []).length ≠ 1 := by
    simp [hq0, K, C]
  have hrowlenP : 2 ≤ (List.zipWith
      (fun P i => P.map (fun j => dot (outW j) (inW i)))
      (p0 :: p1 :: pl2) (i0 :: i1 :: il2)).length := by
    rw [List.length_zipWith]
    simp only [List.length_cons]
    omega
  have hrowlenN : 2 ≤ (List.zipWith
      (fun P i => P.map (fun j => -(dot (outW j) (inW i))))
      (q0 :: q1 :: nl2) (i0 :: i1 :: il2)).length := by
    rw [List.length_zipWith]
    simp only [List.length_cons]
    omega
  have hfneg : (fun (P : List ℕ) (i : ℕ) =>
        P.map (fun j => [dot (outW j) (((fun v : List ℝ => v.map (fun x => -x)) ∘ inW) i)]))
      = fun P i => P.map (fun j => [-(dot (outW j) (inW i))]) := by
    funext P i
    simp only [Function.comp_apply, dot_map_neg]
  have hvlen : (List.zipWith
        (fun P i => (P.map (fun j => logsigmoid (dot (outW j) (inW i)))).sum)
        (p0 :: p1 :: pl2) (i0 :: i1 :: il2)).length
      = (List.zipWith
        (fun P i => (P.map (fun j => logsigmoid (-(dot (outW j) (inW i))))).sum)
        (q0 :: q1 :: nl2) (i0 :: i1 :: il2)).length := by
    rw [List.length_zipWith, List.length_zipWith]
    simp only [List.length_cons]
    omega
  have hmain : forward inW outW (i0 :: i1 :: il2) (p0 :: p1 :: pl2) (q0 :: q1 :: nl2)
      = Except.ok (STensor.vec
          (specLossVec inW outW (i0 :: i1 :: il2) (p0 :: p1 :: pl2) (q0 :: q1 :: nl2))) := by
    simp only [forward]
    rw [bmm_unsqueeze (p0 :: p1 :: pl2) (i0 :: i1 :: il2) outW inW hin]
    rw [List.map_map, bmm_unsqueeze (q0 :: q1 :: nl2) (i0 :: i1 :: il2) outW _ hemb2]
    rw [hfneg]
    rw [zipWith_map_wrap (fun i j => dot (outW j) (inW i))]
    rw [zipWith_map_wrap (fun i j => -(dot (outW j) (inW i)))]
    rw [squeeze_mat_of_len _ hrowlenP hrowheadP]
    rw [squeeze_mat_of_len _ hrowlenN hrowheadN]
    rw [sumDim1_logsigmoidT_mat, sumDim1_logsigmoidT_mat]
    rw [map_sum_logsigmoid_zipWith (fun i j => dot (outW j) (inW i))]
    rw [map_sum_logsigmoid_zipWith (fun i j => -(dot (outW j) (inW i)))]
    simp only [addT, hvlen, if_pos, negT]
    rw [List.map_zipWith]
    rw [zipWith_add_neg_zipWith3
      (fun P i => (P.map (fun j => logsigmoid (dot (outW j) (inW i)))).sum)
      (fun P i => (P.map (fun j => logsigmoid (-(dot (outW j) (inW i))))).sum)
      (i0 :: i1 :: il2) (p0 :: p1 :: pl2) (q0 :: q1 :: nl2)]
    rfl
  refine ⟨hmain, hlen, ?_⟩
  rw [batchLoss, hmain]
  simp [Except.map, meanT, hlen]

/-- Counterexample to claim C1 as stated: on a batch with a single example
(`batch_size = 1`, context row of length `2*C = 6`, negative row of length
`K*2*C = 600`), `squeeze()` also removes the batch dimension, so the
following `.sum(1)` is applied to a rank-1 tensor and `forward` raises a
dimension `IndexError` instead of returning a loss vector of length 1. -/
theorem forward_single_example_fails :
    forward (fun _ => [(1 : ℝ)]) (fun _ => [(1 : ℝ)]) [0]
        [List.replicate 6 0] [List.replicate 600 0]
      = Except.error "IndexError: dim 1 out of range" := rfl

set_option maxRecDepth 10000 in
/-- Witness for `forward_per_example_loss` on a concrete two-example batch
with dataset-shaped rows. -/
theorem forward_per_example_loss_witness :
    forward (fun _ => [(1 : ℝ)]) (fun _ => [(1 : ℝ)]) [0, 1]
        [List.replicate 6 0, List.replicate 6 0]
        [List.replicate 600 0, List.replicate 600 0]
      = Except.ok (STensor.vec (specLossVec (fun _ => [(1 : ℝ)]) (fun _ => [(1 : ℝ)])
          [0, 1] [List.replicate 6 0, List.replicate 6 0]
          [List.replicate 600 0, List.replicate 600 0])) :=
  (forward_per_example_loss (fun _ => [(1 : ℝ)]) (fun _ => [(1 : ℝ)]) [0, 1]
    [List.replicate 6 0, List.replicate 6 0]
    [List.replicate 600 0, List.replicate 600 0]
    (by decide) (by decide) (by decide) (by decide) (by decide)
    (fun _ => by simp)).1
